import Mathlib

/-!
Verification of the embedding storage + vector index + hybrid retrieval
pipeline of the multimodal retrieval system.

The development shallowly embeds:
* `HybridSearchEngine.search` (src/app/indexing/engine.py) — over-fetch,
  sentinel filtering, metadata join and pagination;
* `EmbeddingStore.save_part` / `_update_manifest` (src/app/embedding/store.py);
* `load_embeddings_dir` / `_load_part` and `build_faiss_index`
  (src/app/indexing/faiss_index.py).

File contents are modelled as typed values in a per-(kind, model) directory
state; association lists keyed by part name model the directory listing, a
cons overwriting an older entry exactly as rewriting the file does.  Scores
and vector entries are carried as integers: the engine and the store never
compute with the float payload, they only move it, so any scalar type with
decidable equality and a linear order is a faithful carrier.
-/

namespace MMR

/-- Association-list lookup with the semantics of a Python dict `get` /
directory lookup: the most recently written binding (kept at the head) wins. -/
def alookup {β : Type} (k : String) : List (String × β) → Option β
  | [] => none
  | (a, b) :: rest => if a = k then some b else alookup k rest

/-! ## Hybrid search engine (src/app/indexing/engine.py, lines 135-189) -/

/-- Metadata row returned by `_fetch_metadata` for one document id.  The
Python row always carries all seven keys, so a present row is never falsy. -/
structure Meta where
  title : Option String
  year : Option Int
  source : Option String
  kind : Option String
  method : Option String
deriving DecidableEq

/-- Mirror of `SearchHit` (src/app/indexing/schemas.py). -/
structure SearchHit where
  doc_id : String
  score : Int
  title : Option String
  year : Option Int
  source : Option String
  kind : Option String
  method : Option String
deriving DecidableEq

/-- Mirror of `SearchResponse` (src/app/indexing/schemas.py). -/
structure SearchResponse where
  total : Nat
  page : Nat
  size : Nat
  items : List SearchHit
deriving DecidableEq

/-- The hit built at engine.py lines 157-167 from a candidate id, its paired
score and its metadata row. -/
def mkHit (di : String) (sc : Int) (m : Meta) : SearchHit :=
  ⟨di, sc, m.title, m.year, m.source, m.kind, m.method⟩

/-- Line 146: `doc_ids = [str(backend.ids[i]) for i in idxs if i >= 0]` —
sentinel (negative) row indices are dropped, surviving ones dereference the
id mapping. -/
def hybridDocIds (ids : List String) (idxs : List Int) : List String :=
  (idxs.filter (fun i => decide (0 ≤ i))).map (fun i => ids.getD i.toNat "")

/-- Lines 152-167: `zip(doc_ids, scores[: len(doc_ids)])`, keeping a pair only
when the metadata map holds its id. -/
def joinKept (docIds : List String) (scores : List Int)
    (metaMap : List (String × Meta)) : List SearchHit :=
  (docIds.zip (scores.take docIds.length)).filterMap
    (fun p => (alookup p.1 metaMap).map (mkHit p.1 p.2))

/-- Line 145: the candidate count handed to the backend,
`max(req.top_k, req.page * req.size)`. -/
def overfetchCount (top_k page size : Nat) : Nat :=
  max top_k (page * size)

/-- Lines 144-189 of `HybridSearchEngine.search`, with the backend call and
the metadata lookup abstracted as arguments: `backend k` returns the
`(idxs, scores)` pair of the FAISS top-k call, `metaMap` the mapping
`_fetch_metadata` produced. -/
def hybridSearch (ids : List String) (backend : Nat → List Int × List Int)
    (metaMap : List (String × Meta)) (top_k page size : Nat) : SearchResponse :=
  let res := backend (overfetchCount top_k page size)
  let doc_ids := hybridDocIds ids res.1
  let kept := joinKept doc_ids res.2 metaMap
  { total := kept.length, page := page, size := size,
    items := (kept.drop ((page - 1) * size)).take size }

/-- The (row index, score) pairs that survive sentinel filtering, read off the
two parallel backend output arrays position by position. -/
def validPairs (idxs scores : List Int) : List (Int × Int) :=
  (idxs.zip scores).filter (fun p => decide (0 ≤ p.1))

/-- Shared concrete metadata row used by instantiated theorems below. -/
def mRow : Meta := ⟨some "t", some 2020, some "s", some "text", some "m"⟩

/-! ## Embedding partition store (src/app/embedding/store.py) and
partition loader (src/app/indexing/faiss_index.py, lines 20-88) -/

/-- A rank-2 array: `dim` is `shape[1]`, `rows` the row list.  Kept even for
zero rows, as numpy does for a `(0, dim)` array. -/
structure Arr2 (α : Type) where
  dim : Nat
  rows : List (List α)
deriving DecidableEq

/-- Contents of one partition file: parallel `ids` / `vecs` payloads, written
identically by `_write_npz` and `_write_parquet` (the float32 payload is
moved, never recomputed). -/
structure PartData (α : Type) where
  ids : List String
  vecs : Arr2 α
deriving DecidableEq

/-- One manifest descriptor `{part, count, dim}`. -/
structure ManifestEntry where
  part : String
  count : Nat
  dim : Nat
deriving DecidableEq

/-- Manifest JSON object `{kind, model, parts}`. -/
structure Manifest where
  kind : String
  model : String
  parts : List ManifestEntry
deriving DecidableEq

/-- State of one `{root}/{kind}/{model}` directory: the optional manifest
file and the `.npz` / `.parquet` files keyed by part name. -/
structure Dir (α : Type) where
  manifest : Option Manifest
  npz : List (String × PartData α)
  parquet : List (String × PartData α)
deriving DecidableEq

/-- The resolved partition encoding ("auto" resolves to parquet when pyarrow
imports, otherwise npz, before any file is written). -/
inductive Fmt
  | parquet
  | npz
deriving DecidableEq

/-- A directory with no files yet: a fresh (kind, model). -/
def emptyDir (α : Type) : Dir α := ⟨none, [], []⟩

/-- Mirror of `EmbeddingStore._update_manifest` (store.py lines 79-89):
append the new entry to an existing manifest's parts, or create the
manifest with that single entry. -/
def updateManifest (m : Option Manifest) (kind model part : String)
    (count dim : Nat) : Manifest :=
  match m with
  | some data => { data with parts := data.parts ++ [⟨part, count, dim⟩] }
  | none => ⟨kind, model, [⟨part, count, dim⟩]⟩

/-- Mirror of `EmbeddingStore.save_part` (store.py lines 23-58).  The Python
code first validates `vectors.ndim == 2`; an `Arr2` value is rank-2 by
construction, so that `ValueError` branch has no inhabitant here.  Writing
a file conses the binding, shadowing (overwriting) any older file of the
same name; then the manifest is updated. -/
def savePart {α : Type} (d : Dir α) (kind model part : String)
    (doc_ids : List String) (vectors : Arr2 α) (fmt : Fmt) : Dir α :=
  match fmt with
  | .parquet =>
      { d with
        parquet := (part, ⟨doc_ids, vectors⟩) :: d.parquet,
        manifest := some (updateManifest d.manifest kind model part
          vectors.rows.length vectors.dim) }
  | .npz =>
      { d with
        npz := (part, ⟨doc_ids, vectors⟩) :: d.npz,
        manifest := some (updateManifest d.manifest kind model part
          vectors.rows.length vectors.dim) }

/-- The parts list of the directory's manifest (empty when no manifest). -/
def manifestParts {α : Type} (d : Dir α) : List ManifestEntry :=
  match d.manifest with
  | some m => m.parts
  | none => []

/-- Loader failure modes: `FileNotFoundError` for a missing manifest or
partition, `ValueError` for the `np.vstack` shape mismatch. -/
inductive LoadErr
  | fileNotFound
  | valueError
deriving DecidableEq

/-- Mirror of the per-entry loop of `load_embeddings_dir` (faiss_index.py
lines 70-81): for each descriptor the `.npz` variant is tried first, then
the `.parquet` variant, and a `FileNotFoundError` is raised when neither
exists. -/
def loadParts {α : Type} (d : Dir α) :
    List ManifestEntry → Except LoadErr (List (PartData α))
  | [] => .ok []
  | e :: rest =>
    match alookup e.part d.npz with
    | some f => Except.map (fun fs => f :: fs) (loadParts d rest)
    | none =>
      match alookup e.part d.parquet with
      | some f => Except.map (fun fs => f :: fs) (loadParts d rest)
      | none => .error .fileNotFound

/-- Mirror of `np.vstack` over the loaded parts: succeeds when every part
shares the first part's column count, else raises `ValueError`. -/
def vstackParts {α : Type} : List (PartData α) → Except LoadErr (Arr2 α)
  | [] => .ok ⟨0, []⟩
  | f :: rest =>
    if rest.all (fun g => decide (g.vecs.dim = f.vecs.dim)) then
      .ok ⟨f.vecs.dim, ((f :: rest).map (fun p => p.vecs.rows)).flatten⟩
    else
      .error .valueError

/-- Mirror of `load_embeddings_dir` (faiss_index.py lines 52-88): read the
manifest (`FileNotFoundError` if absent), load every listed part, return
empty arrays when nothing was loaded, otherwise concatenate ids and stack
vectors. -/
def loadEmbeddingsDir {α : Type} (d : Dir α) :
    Except LoadErr (List String × Arr2 α) :=
  match d.manifest with
  | none => .error .fileNotFound
  | some man =>
    match loadParts d man.parts with
    | .error e => .error e
    | .ok files =>
      if files.isEmpty then
        .ok ([], ⟨0, []⟩)
      else
        match vstackParts files with
        | .error e => .error e
        | .ok vecs => .ok ((files.map (fun p => p.ids)).flatten, vecs)

/-- One recorded `save_part` call, for reasoning about call sequences. -/
structure SaveOp (α : Type) where
  kind : String
  model : String
  part : String
  doc_ids : List String
  vectors : Arr2 α
  fmt : Fmt

/-- Replay a sequence of `save_part` calls against a directory state. -/
def applySaves {α : Type} (d : Dir α) : List (SaveOp α) → Dir α
  | [] => d
  | op :: rest =>
      applySaves (savePart d op.kind op.model op.part op.doc_ids op.vectors op.fmt) rest

/-! ## Index builder (src/app/indexing/faiss_index.py, lines 91-115).
The index structure itself lives in the external FAISS library; its exact
flat (brute-force) top-k semantics is modelled from the spec. -/

/-- The metric selected by `build_faiss_index`. -/
inductive Metric
  | ip
  | l2
deriving DecidableEq

/-- Modelled from the spec: the FAISS flat index object is missing from the
repository (external library); per spec sections 3 and 4.3 it is an
immutable exact structure holding the inserted row matrix and the metric,
with no approximate state and no randomness. -/
structure FlatIndex where
  dim : Nat
  metric : Metric
  xs : List (List Int)
deriving DecidableEq

/-- Mirror of `build_faiss_index` (faiss_index.py lines 91-115): dispatch on
the metric string — any other value raises a ValueError — then add all rows
of the matrix to the fresh flat index.  Integer scalars carry the exact
arithmetic of the modelled scores. -/
def build_faiss_index (vecs : Arr2 Int) (metric : String) :
    Except String FlatIndex :=
  if metric = "ip" then .ok ⟨vecs.dim, .ip, vecs.rows⟩
  else if metric = "l2" then .ok ⟨vecs.dim, .l2, vecs.rows⟩
  else .error "metric must be ip or l2"

/-- Modelled from the spec: the score FAISS's exact flat search assigns a
stored row — inner product for ip, squared Euclidean distance for l2
(spec section 4.3). -/
def scoreOf (m : Metric) (q x : List Int) : Int :=
  match m with
  | .ip => (List.zipWith (fun a b => a * b) q x).sum
  | .l2 => (List.zipWith (fun a b => (a - b) * (a - b)) q x).sum

/-- Best-first comparison of (row index, score) pairs: for l2 (flip = true)
a smaller score is better, for ip a larger one; equal scores fall back to
the lower row index (spec section 4.4: ties are broken by ingestion order,
lower row index wins). -/
def hitLE (flip : Bool) (a b : Nat × Int) : Prop :=
  (if flip then a.2 < b.2 else b.2 < a.2) ∨ (a.2 = b.2 ∧ a.1 ≤ b.1)

instance (flip : Bool) : DecidableRel (hitLE flip) := fun a b => by
  unfold hitLE
  infer_instance

instance (flip : Bool) : IsTotal (Nat × Int) (hitLE flip) :=
  ⟨fun a b => by cases flip <;> simp only [hitLE] <;> simp <;> omega⟩

instance (flip : Bool) : IsTrans (Nat × Int) (hitLE flip) :=
  ⟨fun a b c hab hbc => by
    cases flip <;> simp only [hitLE] at hab hbc ⊢ <;> simp at hab hbc ⊢ <;> omega⟩

/-- Whether the metric orders smaller scores first. -/
def metricFlip : Metric → Bool
  | .ip => false
  | .l2 => true

/-- Modelled from the spec: exact flat top-k — score every stored row,
order best-first with ties to the lower row index, return the first k
(row index, score) pairs (spec sections 4.3 and 4.4). -/
def searchFlat (idx : FlatIndex) (q : List Int) (k : Nat) : List (Nat × Int) :=
  (List.insertionSort (hitLE (metricFlip idx.metric))
    ((idx.xs.map (scoreOf idx.metric q)).enum)).take k

/-- Strict best-first order: strictly better score, or an equal score and a
strictly lower row index. -/
def hitLT (flip : Bool) (a b : Nat × Int) : Prop :=
  (if flip then a.2 < b.2 else b.2 < a.2) ∨ (a.2 = b.2 ∧ a.1 < b.1)

/-- Two concrete saves of dim-4 parts replayed for instantiated theorems. -/
def opsC : List (SaveOp Int) :=
  [⟨"text", "m", "p", ["x"], ⟨4, [[1, 2, 3, 4]]⟩, .npz⟩,
   ⟨"text", "m", "q", ["y"], ⟨4, [[5, 6, 7, 8]]⟩, .parquet⟩]

/-- Concrete dim-1 flat index with a score tie between rows 0 and 2. -/
def c9Index : FlatIndex := ⟨1, .ip, [[2], [1], [2]]⟩

/-- Partition content stored in the npz variant of part p. -/
def npzData : PartData Int := ⟨["n1"], ⟨2, [[1, 2]]⟩⟩

/-- Different partition content stored in the parquet variant of part p. -/
def pqData : PartData Int := ⟨["q1"], ⟨2, [[3, 4]]⟩⟩

/-- A directory where part p exists in both encodings with different data. -/
def bothDir : Dir Int :=
  ⟨some ⟨"text", "m", [⟨"p", 1, 2⟩]⟩, [("p", npzData)], [("p", pqData)]⟩

/-- Saving appends exactly one descriptor with the part's row count and
column count to the end of the manifest's parts list. -/
theorem manifestParts_save {α : Type} (d : Dir α) (kind model part : String)
    (doc_ids : List String) (vectors : Arr2 α) (fmt : Fmt) :
    manifestParts (savePart d kind model part doc_ids vectors fmt)
      = manifestParts d ++ [⟨part, vectors.rows.length, vectors.dim⟩] := by
  cases fmt <;> cases h : d.manifest <;>
    simp [savePart, manifestParts, updateManifest, h]

/-- The per-entry loading loop only ever fails with the not-found error. -/
theorem loadParts_error_eq {α : Type} (d : Dir α) (es : List ManifestEntry)
    (er : LoadErr) (h : loadParts d es = .error er) : er = .fileNotFound := by
  induction es with
  | nil => simp [loadParts] at h
  | cons e rest ih =>
    unfold loadParts at h
    cases h1 : alookup e.part d.npz with
    | some f =>
      rw [h1] at h
      cases h2 : loadParts d rest with
      | error e' =>
        rw [h2] at h
        simp only [Except.map] at h
        cases h
        exact ih h2
      | ok fs => rw [h2] at h; simp [Except.map] at h
    | none =>
      rw [h1] at h
      cases h2 : alookup e.part d.parquet with
      | some f =>
        rw [h2] at h
        cases h3 : loadParts d rest with
        | error e' =>
          rw [h3] at h
          simp only [Except.map] at h
          cases h
          exact ih h3
        | ok fs => rw [h3] at h; simp [Except.map] at h
      | none =>
        rw [h2] at h
        cases h
        rfl

/-- The per-entry loading loop fails exactly when some listed part has
neither file variant on disk. -/
theorem loadParts_error_iff {α : Type} (d : Dir α) (es : List ManifestEntry) :
    loadParts d es = .error .fileNotFound
      ↔ ∃ e ∈ es, alookup e.part d.npz = none ∧ alookup e.part d.parquet = none := by
  induction es with
  | nil => simp [loadParts]
  | cons e rest ih =>
    constructor
    · intro h
      unfold loadParts at h
      cases h1 : alookup e.part d.npz with
      | some f =>
        rw [h1] at h
        cases h2 : loadParts d rest with
        | error e' =>
          rw [h2] at h
          simp only [Except.map] at h
          cases h
          rcases ih.mp h2 with ⟨e', hmem, hcond⟩
          exact ⟨e', List.mem_cons_of_mem _ hmem, hcond⟩
        | ok fs => rw [h2] at h; simp [Except.map] at h
      | none =>
        rw [h1] at h
        cases h2 : alookup e.part d.parquet with
        | some f =>
          rw [h2] at h
          cases h3 : loadParts d rest with
          | error e' =>
            rw [h3] at h
            simp only [Except.map] at h
            cases h
            rcases ih.mp h3 with ⟨e', hmem, hcond⟩
            exact ⟨e', List.mem_cons_of_mem _ hmem, hcond⟩
          | ok fs => rw [h3] at h; simp [Except.map] at h
        | none => exact ⟨e, List.mem_cons_self _ _, h1, h2⟩
    · rintro ⟨e', hmem, hn, hp⟩
      rcases List.mem_cons.mp hmem with rfl | hmem'
      · unfold loadParts
        rw [hn, hp]
      · unfold loadParts
        have hrest : loadParts d rest = .error .fileNotFound :=
          ih.mpr ⟨e', hmem', hn, hp⟩
        cases h1 : alookup e.part d.npz with
        | some f => rw [hrest]; rfl
        | none =>
          cases h2 : alookup e.part d.parquet with
          | some f => rw [hrest]; rfl
          | none => rfl

/-- Stacking loaded parts only ever fails with the value error. -/
theorem vstackParts_error {α : Type} (files : List (PartData α)) (er : LoadErr)
    (h : vstackParts files = .error er) : er = .valueError := by
  cases files with
  | nil => simp [vstackParts] at h
  | cons f rest =>
    have h' : (if (rest.all fun g => decide (g.vecs.dim = f.vecs.dim)) = true then
          (Except.ok ⟨f.vecs.dim, ((f :: rest).map (fun p => p.vecs.rows)).flatten⟩
            : Except LoadErr (Arr2 α))
        else .error .valueError) = .error er := h
    by_cases hc : (rest.all fun g => decide (g.vecs.dim = f.vecs.dim)) = true
    · rw [if_pos hc] at h'; simp at h'
    · rw [if_neg hc] at h'
      exact (Except.error.inj h').symm

/-- Replaying saves of a common column count keeps every manifest descriptor
at that column count, provided the starting manifest already satisfied it. -/
theorem applySaves_dim_aux {α : Type} (ops : List (SaveOp α)) (c : Nat) :
    ∀ (d : Dir α), (∀ op ∈ ops, op.vectors.dim = c) →
      (∀ e ∈ manifestParts d, e.dim = c) →
      ∀ e ∈ manifestParts (applySaves d ops), e.dim = c := by
  induction ops with
  | nil => intro d _ hd; simpa [applySaves] using hd
  | cons op rest ih =>
    intro d h hd
    simp only [applySaves]
    apply ih
    · exact fun o ho => h o (List.mem_cons_of_mem _ ho)
    · intro e he
      rw [manifestParts_save] at he
      rcases List.mem_append.mp he with h1 | h2
      · exact hd e h1
      · rw [List.mem_singleton.mp h2]
        exact h op (List.mem_cons_self _ _)

/-- Zipping with a take of the own length changes nothing. -/
theorem zip_take_length {α β : Type} (l : List α) (s : List β) :
    l.zip (s.take l.length) = l.zip s := by
  induction l generalizing s with
  | nil => simp
  | cons a l ih =>
    cases s with
    | nil => simp
    | cons b s => simpa using ih s

/-- The kept hits of the metadata join are, id-wise, an order-preserving
selection from the candidate id list. -/
theorem joinKept_docIds_sublist (docIds : List String) (scores : List Int)
    (mm : List (String × Meta)) :
    ((joinKept docIds scores mm).map SearchHit.doc_id).Sublist docIds := by
  unfold joinKept
  rw [zip_take_length]
  induction docIds generalizing scores with
  | nil => simp
  | cons d ds ih =>
    cases scores with
    | nil => simp
    | cons s ss =>
      rw [List.zip_cons_cons, List.filterMap_cons]
      cases h : alookup d mm with
      | none => exact (ih ss).cons d
      | some m => exact (ih ss).cons₂ d

end MMR

/-- Claim C1: for every search request with positive top_k, page and size the
engine consults the backend only at the candidate count
`max(top_k, page * size)` — two backends agreeing there give identical
responses — and for page = 3, size = 10, top_k = 5 that count is 30 ≥ 30. -/
theorem MMR.overfetch_requests_max (top_k page size : Nat)
    (hk : 0 < top_k) (hp : 0 < page) (hs : 0 < size) :
    (∀ (ids : List String) (b₁ b₂ : Nat → List Int × List Int)
        (mm : List (String × MMR.Meta)),
        b₁ (max top_k (page * size)) = b₂ (max top_k (page * size)) →
        MMR.hybridSearch ids b₁ mm top_k page size
          = MMR.hybridSearch ids b₂ mm top_k page size)
      ∧ MMR.overfetchCount top_k page size = max top_k (page * size)
      ∧ 30 ≤ MMR.overfetchCount 5 3 10 := by
  refine ⟨?_, rfl, by decide⟩
  intro ids b₁ b₂ mm h
  unfold MMR.hybridSearch MMR.overfetchCount
  rw [h]

/-- Witness for C1 at top_k = 5, page = 3, size = 10. -/
theorem MMR.overfetch_requests_max_witness :
    (∀ (ids : List String) (b₁ b₂ : Nat → List Int × List Int)
        (mm : List (String × MMR.Meta)),
        b₁ (max 5 (3 * 10)) = b₂ (max 5 (3 * 10)) →
        MMR.hybridSearch ids b₁ mm 5 3 10 = MMR.hybridSearch ids b₂ mm 5 3 10)
      ∧ MMR.overfetchCount 5 3 10 = max 5 (3 * 10)
      ∧ 30 ≤ MMR.overfetchCount 5 3 10 :=
  MMR.overfetch_requests_max 5 3 10 (by decide) (by decide) (by decide)

/-- Claim C2: the response's items are the slice
`[(page-1)*size, (page-1)*size + size)` of the joined, score-ordered hit
list, and the reported total is the length of that joined list — counted
after the metadata join but before pagination. -/
theorem MMR.pagination_slice (ids : List String) (idxs scores : List Int)
    (mm : List (String × MMR.Meta)) (top_k page size : Nat) (hp : 1 ≤ page) :
    (MMR.hybridSearch ids (fun _ => (idxs, scores)) mm top_k page size).items
        = (((MMR.joinKept (MMR.hybridDocIds ids idxs) scores mm).drop
              ((page - 1) * size)).take size)
      ∧ (MMR.hybridSearch ids (fun _ => (idxs, scores)) mm top_k page size).total
        = (MMR.joinKept (MMR.hybridDocIds ids idxs) scores mm).length :=
  ⟨rfl, rfl⟩

/-- Witness for C2 on a concrete request. -/
theorem MMR.pagination_slice_witness :
    (MMR.hybridSearch ["a"] (fun _ => ([0], [7])) [("a", MMR.mRow)] 1 1 10).items
        = (((MMR.joinKept (MMR.hybridDocIds ["a"] [0]) [7] [("a", MMR.mRow)]).drop
              ((1 - 1) * 10)).take 10)
      ∧ (MMR.hybridSearch ["a"] (fun _ => ([0], [7])) [("a", MMR.mRow)] 1 1 10).total
        = (MMR.joinKept (MMR.hybridDocIds ["a"] [0]) [7] [("a", MMR.mRow)]).length :=
  MMR.pagination_slice ["a"] [0] [7] [("a", MMR.mRow)] 1 1 10 (by decide)

/-- Claim C3: a candidate id absent from the metadata lookup result never
appears among the kept hits, whatever its score, and the kept ids are an
order-preserving selection from the score-ordered candidate list. -/
theorem MMR.filter_join_semantics (ids : List String) (idxs scores : List Int)
    (mm : List (String × MMR.Meta)) :
    (∀ h ∈ MMR.joinKept (MMR.hybridDocIds ids idxs) scores mm,
        (MMR.alookup h.doc_id mm).isSome)
      ∧ ((MMR.joinKept (MMR.hybridDocIds ids idxs) scores mm).map
            MMR.SearchHit.doc_id).Sublist (MMR.hybridDocIds ids idxs) := by
  refine ⟨?_, MMR.joinKept_docIds_sublist _ _ _⟩
  intro h hmem
  unfold MMR.joinKept at hmem
  rcases List.mem_filterMap.mp hmem with ⟨p, _, hp⟩
  rcases Option.map_eq_some'.mp hp with ⟨m, hm, hmk⟩
  have hd : h.doc_id = p.1 := by rw [← hmk]; rfl
  rw [hd, hm]
  rfl

/-- Counterexample to claim C4 as stated: with a sentinel in a non-trailing
position the engine pairs the surviving row's id with the score stored at
the sentinel's position.  Backend output `idxs = [-1, 0]`,
`scores = [10, 20]`: row 0 becomes the only hit, its backend score is 20,
yet the returned hit carries score 10. -/
theorem MMR.score_pairing_cex :
    (MMR.hybridSearch ["a", "b"] (fun _ => ([-1, 0], [10, 20]))
        [("a", MMR.mRow)] 2 1 10).items = [MMR.mkHit "a" 10 MMR.mRow]
      ∧ MMR.validPairs [-1, 0] [10, 20] = [(0, 20)]
      ∧ (10 : Int) ≠ 20 := by decide

/-- Claim C4 amended: when the sentinel indices occur only as a trailing
block of the row-index array — as the backend produces them when fewer than
k rows exist — each kept hit pairs a document id with the score the backend
returned for that same row: the join equals the join over the positionally
aligned surviving (row, score) pairs. -/
theorem MMR.score_pairing_suffix (ids : List String) (v t scores : List Int)
    (mm : List (String × MMR.Meta))
    (hv : ∀ i ∈ v, 0 ≤ i) (ht : ∀ i ∈ t, i < 0)
    (hlen : scores.length = v.length + t.length) :
    MMR.joinKept (MMR.hybridDocIds ids (v ++ t)) scores mm
      = (MMR.validPairs (v ++ t) scores).filterMap
          (fun p => (MMR.alookup (ids.getD p.1.toNat "") mm).map
              (MMR.mkHit (ids.getD p.1.toNat "") p.2)) := by
  have hvlen : v.length ≤ scores.length := by omega
  have hs1 : v.length = (scores.take v.length).length := by
    simp [List.length_take, Nat.min_eq_left hvlen]
  have hfv : v.filter (fun i => decide (0 ≤ i)) = v :=
    List.filter_eq_self.mpr (fun a ha => by simpa using hv a ha)
  have hft : t.filter (fun i => decide (0 ≤ i)) = [] :=
    List.filter_eq_nil_iff.mpr (fun a ha => by simpa using not_le.mpr (ht a ha))
  have hdocs : MMR.hybridDocIds ids (v ++ t)
      = v.map (fun i => ids.getD i.toNat "") := by
    unfold MMR.hybridDocIds
    rw [List.filter_append, hfv, hft, List.append_nil]
  have hvalid : MMR.validPairs (v ++ t) scores
      = v.zip (scores.take v.length) := by
    unfold MMR.validPairs
    conv_lhs => rw [← List.take_append_drop v.length scores]
    rw [List.zip_append hs1, List.filter_append]
    have h1 : (v.zip (scores.take v.length)).filter
        (fun p => decide (0 ≤ p.1)) = v.zip (scores.take v.length) :=
      List.filter_eq_self.mpr (fun p hp => by
        rcases p with ⟨a, b⟩
        simpa using hv a (List.of_mem_zip hp).1)
    have h2 : (t.zip (scores.drop v.length)).filter
        (fun p => decide (0 ≤ p.1)) = [] :=
      List.filter_eq_nil_iff.mpr (fun p hp => by
        rcases p with ⟨a, b⟩
        simpa using not_le.mpr (ht a (List.of_mem_zip hp).1))
    rw [h1, h2, List.append_nil]
  rw [hdocs, hvalid]
  unfold MMR.joinKept
  rw [List.length_map, MMR.zip_take_length, ← MMR.zip_take_length v scores,
    List.zip_map_left, List.filterMap_map]
  rfl

/-- Witness for the amended C4: one valid row followed by one sentinel. -/
theorem MMR.score_pairing_suffix_witness :
    MMR.joinKept (MMR.hybridDocIds ["a", "b"] ([1] ++ [-1])) [20, 10]
        [("b", MMR.mRow)]
      = (MMR.validPairs ([1] ++ [-1]) [20, 10]).filterMap
          (fun p => (MMR.alookup (["a", "b"].getD p.1.toNat "") [("b", MMR.mRow)]).map
              (MMR.mkHit (["a", "b"].getD p.1.toNat "") p.2)) :=
  MMR.score_pairing_suffix ["a", "b"] [1] [-1] [20, 10] [("b", MMR.mRow)]
    (by decide) (by decide) (by decide)

/-- Claim C5: saving a list of ids and a rank-2 matrix with matching row
count as a part under a fresh (kind, model) and loading that (kind, model)
returns the ids and vectors unchanged, in order, for either encoding. -/
theorem MMR.save_load_roundtrip {α : Type} (kind model part : String)
    (doc_ids : List String) (vectors : MMR.Arr2 α) (fmt : MMR.Fmt)
    (hlen : doc_ids.length = vectors.rows.length)
    (hwf : ∀ r ∈ vectors.rows, r.length = vectors.dim) :
    MMR.loadEmbeddingsDir
        (MMR.savePart (MMR.emptyDir α) kind model part doc_ids vectors fmt)
      = .ok (doc_ids, vectors) := by
  cases fmt <;>
    simp [MMR.savePart, MMR.emptyDir, MMR.updateManifest, MMR.loadEmbeddingsDir,
      MMR.loadParts, MMR.alookup, MMR.vstackParts, Except.map]

/-- Witness for C5: a 2 × 4 part round-trips through both encodings. -/
theorem MMR.save_load_roundtrip_witness :
    MMR.loadEmbeddingsDir
        (MMR.savePart (MMR.emptyDir Int) "text" "m1" "p0" ["d1", "d2"]
          ⟨4, [[1, 0, 0, 0], [0, 1, 0, 0]]⟩ .npz)
      = .ok (["d1", "d2"], ⟨4, [[1, 0, 0, 0], [0, 1, 0, 0]]⟩)
    ∧ MMR.loadEmbeddingsDir
        (MMR.savePart (MMR.emptyDir Int) "text" "m1" "p0" ["d1", "d2"]
          ⟨4, [[1, 0, 0, 0], [0, 1, 0, 0]]⟩ .parquet)
      = .ok (["d1", "d2"], ⟨4, [[1, 0, 0, 0], [0, 1, 0, 0]]⟩) :=
  ⟨MMR.save_load_roundtrip "text" "m1" "p0" ["d1", "d2"]
      ⟨4, [[1, 0, 0, 0], [0, 1, 0, 0]]⟩ .npz (by decide) (by decide),
    MMR.save_load_roundtrip "text" "m1" "p0" ["d1", "d2"]
      ⟨4, [[1, 0, 0, 0], [0, 1, 0, 0]]⟩ .parquet (by decide) (by decide)⟩

/-- Claim C6: every `save_part` call appends exactly one descriptor
`{part, count, dim}` at the end of the manifest's parts list, mutating or
removing nothing; two saves from a fresh directory leave exactly the two
descriptors in save order, whatever the part names (also when re-used). -/
theorem MMR.manifest_append_only {α : Type} (d : MMR.Dir α)
    (kind model part : String) (doc_ids : List String) (vectors : MMR.Arr2 α)
    (fmt : MMR.Fmt) :
    MMR.manifestParts (MMR.savePart d kind model part doc_ids vectors fmt)
        = MMR.manifestParts d ++ [⟨part, vectors.rows.length, vectors.dim⟩]
      ∧ ∀ (k₂ m₂ p₂ : String) (ids₂ : List String) (v₂ : MMR.Arr2 α) (f₂ : MMR.Fmt),
          MMR.manifestParts
              (MMR.savePart
                (MMR.savePart (MMR.emptyDir α) kind model part doc_ids vectors fmt)
                k₂ m₂ p₂ ids₂ v₂ f₂)
            = [⟨part, vectors.rows.length, vectors.dim⟩,
               ⟨p₂, v₂.rows.length, v₂.dim⟩] := by
  refine ⟨MMR.manifestParts_save d kind model part doc_ids vectors fmt, ?_⟩
  intro k₂ m₂ p₂ ids₂ v₂ f₂
  rw [MMR.manifestParts_save, MMR.manifestParts_save]
  simp [MMR.emptyDir, MMR.manifestParts]

/-- Counterexample to claim C7 as stated: nothing stops two saves under one
(kind, model) from recording different dims — a 1 × 2 part then a 1 × 3 part
leaves a manifest whose descriptors carry dims 2 and 3. -/
theorem MMR.manifest_dim_cex :
    (MMR.manifestParts
        (MMR.savePart
          (MMR.savePart (MMR.emptyDir Int) "text" "m" "p" ["x"] ⟨2, [[1, 1]]⟩ .npz)
          "text" "m" "q" ["y"] ⟨3, [[1, 1, 1]]⟩ .npz)).map MMR.ManifestEntry.dim
        = [2, 3]
      ∧ (2 : Nat) ≠ 3 := by decide

/-- Claim C7 amended: when every `save_part` call of the sequence carries the
same vector dimension c — the documented usage, since the store itself never
checks dims across calls — all descriptors of the resulting manifest share
that dim c. -/
theorem MMR.manifest_dim_uniform {α : Type} (ops : List (MMR.SaveOp α)) (c : Nat)
    (h : ∀ op ∈ ops, op.vectors.dim = c) :
    ∀ e ∈ MMR.manifestParts (MMR.applySaves (MMR.emptyDir α) ops), e.dim = c :=
  MMR.applySaves_dim_aux ops c (MMR.emptyDir α) h
    (by simp [MMR.emptyDir, MMR.manifestParts])

/-- Witness for the amended C7 at a two-save sequence of dim-4 parts. -/
theorem MMR.manifest_dim_uniform_witness :
    (⟨"p", 1, 4⟩ : MMR.ManifestEntry).dim = 4 :=
  MMR.manifest_dim_uniform MMR.opsC 4 (by decide) ⟨"p", 1, 4⟩ (by decide)

/-- Claim C8: the loader fails with the not-found error exactly when the
manifest is absent or some listed part has neither file variant; a present
manifest listing zero parts loads as empty arrays without error. -/
theorem MMR.load_notfound_iff {α : Type} (d : MMR.Dir α) :
    (MMR.loadEmbeddingsDir d = .error .fileNotFound
        ↔ d.manifest = none
          ∨ ∃ m, d.manifest = some m ∧ ∃ e ∈ m.parts,
              MMR.alookup e.part d.npz = none ∧ MMR.alookup e.part d.parquet = none)
      ∧ ∀ m, d.manifest = some m → m.parts = [] →
          MMR.loadEmbeddingsDir d = .ok ([], ⟨0, []⟩) := by
  constructor
  · constructor
    · intro h
      cases hman : d.manifest with
      | none => exact Or.inl rfl
      | some man =>
        simp only [MMR.loadEmbeddingsDir, hman] at h
        cases hlp : MMR.loadParts d man.parts with
        | error er =>
          have her : er = .fileNotFound :=
            MMR.loadParts_error_eq d man.parts er hlp
          rw [her] at hlp
          rcases (MMR.loadParts_error_iff d man.parts).mp hlp with ⟨e, hmem, hcond⟩
          exact Or.inr ⟨man, rfl, e, hmem, hcond⟩
        | ok files =>
          simp only [hlp] at h
          by_cases hemp : files.isEmpty = true
          · rw [if_pos hemp] at h
            simp at h
          · rw [if_neg hemp] at h
            cases hvs : MMR.vstackParts files with
            | error er =>
              simp only [hvs, Except.error.injEq] at h
              have hv2 := MMR.vstackParts_error files er hvs
              rw [hv2] at h
              exact absurd h (by decide)
            | ok vecs =>
              simp only [hvs] at h
              exact absurd h (by simp)
    · rintro (hnone | ⟨m', hm', e, hmem, hn, hp⟩)
      · simp [MMR.loadEmbeddingsDir, hnone]
      · have hlp : MMR.loadParts d m'.parts = .error .fileNotFound :=
          (MMR.loadParts_error_iff d m'.parts).mpr ⟨e, hmem, hn, hp⟩
        simp [MMR.loadEmbeddingsDir, hm', hlp]
  · intro m hm hparts
    simp [MMR.loadEmbeddingsDir, hm, hparts, MMR.loadParts]

/-- Witness for C8: a manifest listing zero parts loads as empty arrays. -/
theorem MMR.load_notfound_iff_witness :
    MMR.loadEmbeddingsDir (⟨some ⟨"text", "m", []⟩, [], []⟩ : MMR.Dir Int)
      = .ok ([], ⟨0, []⟩) :=
  (MMR.load_notfound_iff (⟨some ⟨"text", "m", []⟩, [], []⟩ : MMR.Dir Int)).2
    ⟨"text", "m", []⟩ rfl rfl

/-- Claim C9: index build is deterministic — two builds from the same matrix
and metric answer every query identically — and the answers have exact
brute-force semantics: results are strictly ordered best-first with ties
broken by the lower row index, and every returned score is the metric's
score of the row at the returned index. -/
theorem MMR.build_search_deterministic (vecs : MMR.Arr2 Int) (metric : String)
    (q : List Int) (k : Nat) (i₁ i₂ : MMR.FlatIndex)
    (h₁ : MMR.build_faiss_index vecs metric = .ok i₁)
    (h₂ : MMR.build_faiss_index vecs metric = .ok i₂) :
    MMR.searchFlat i₁ q k = MMR.searchFlat i₂ q k
      ∧ (MMR.searchFlat i₁ q k).Pairwise (MMR.hitLT (MMR.metricFlip i₁.metric))
      ∧ ∀ p ∈ MMR.searchFlat i₁ q k,
          ∃ row, i₁.xs[p.1]? = some row ∧ p.2 = MMR.scoreOf i₁.metric q row := by
  have hi : i₁ = i₂ := by rw [h₁] at h₂; exact Except.ok.inj h₂
  subst hi
  refine ⟨rfl, ?_, ?_⟩
  · unfold MMR.searchFlat
    have hsorted : List.Sorted (MMR.hitLE (MMR.metricFlip i₁.metric))
        (List.insertionSort (MMR.hitLE (MMR.metricFlip i₁.metric))
          ((i₁.xs.map (MMR.scoreOf i₁.metric q)).enum)) :=
      List.sorted_insertionSort _ _
    have hperm := List.perm_insertionSort (MMR.hitLE (MMR.metricFlip i₁.metric))
      ((i₁.xs.map (MMR.scoreOf i₁.metric q)).enum)
    have hnd_l : (((i₁.xs.map (MMR.scoreOf i₁.metric q)).enum).map Prod.fst).Nodup := by
      rw [List.enum_map_fst]
      exact List.nodup_range _
    have hnd : ((List.insertionSort (MMR.hitLE (MMR.metricFlip i₁.metric))
        ((i₁.xs.map (MMR.scoreOf i₁.metric q)).enum)).map Prod.fst).Nodup :=
      ((hperm.map Prod.fst).nodup_iff).mpr hnd_l
    have hpw_ne : (List.insertionSort (MMR.hitLE (MMR.metricFlip i₁.metric))
        ((i₁.xs.map (MMR.scoreOf i₁.metric q)).enum)).Pairwise
          (fun a b => a.1 ≠ b.1) := List.pairwise_map.mp hnd
    have hall := List.Pairwise.and hsorted hpw_ne
    have himp : (List.insertionSort (MMR.hitLE (MMR.metricFlip i₁.metric))
        ((i₁.xs.map (MMR.scoreOf i₁.metric q)).enum)).Pairwise
          (MMR.hitLT (MMR.metricFlip i₁.metric)) := by
      refine hall.imp ?_
      rintro a b ⟨hle, hne⟩
      rcases hle with hs | ⟨heq, hle'⟩
      · exact Or.inl hs
      · exact Or.inr ⟨heq, lt_of_le_of_ne hle' hne⟩
    exact List.Pairwise.sublist (List.take_sublist _ _) himp
  · intro p hp
    unfold MMR.searchFlat at hp
    have hp2 : p ∈ List.insertionSort (MMR.hitLE (MMR.metricFlip i₁.metric))
        ((i₁.xs.map (MMR.scoreOf i₁.metric q)).enum) :=
      List.Sublist.mem hp (List.take_sublist _ _)
    have hp3 : p ∈ (i₁.xs.map (MMR.scoreOf i₁.metric q)).enum :=
      ((List.perm_insertionSort _ _).mem_iff).mp hp2
    have hp4 := List.mem_enum_iff_getElem?.mp hp3
    rw [List.getElem?_map] at hp4
    cases hrow : i₁.xs[p.1]? with
    | none => rw [hrow] at hp4; simp at hp4
    | some row =>
      rw [hrow] at hp4
      simp only [Option.map_some'] at hp4
      exact ⟨row, rfl, (Option.some.inj hp4).symm⟩

/-- Witness for C9 on a three-row index with a tied top score. -/
theorem MMR.build_search_deterministic_witness :
    MMR.searchFlat MMR.c9Index [1] 3 = MMR.searchFlat MMR.c9Index [1] 3
      ∧ (MMR.searchFlat MMR.c9Index [1] 3).Pairwise
          (MMR.hitLT (MMR.metricFlip MMR.c9Index.metric))
      ∧ ∀ p ∈ MMR.searchFlat MMR.c9Index [1] 3,
          ∃ row, MMR.c9Index.xs[p.1]? = some row
            ∧ p.2 = MMR.scoreOf MMR.c9Index.metric [1] row :=
  MMR.build_search_deterministic ⟨1, [[2], [1], [2]]⟩ "ip" [1] 3 MMR.c9Index MMR.c9Index
    rfl rfl

/-- Claim C10: for each manifest entry the loader reads the npz variant
whenever it exists — whatever the parquet listing holds the loaded head is
the npz file's content — and reads the parquet variant only when the npz
file is absent. -/
theorem MMR.npz_over_parquet {α : Type} (d : MMR.Dir α) (e : MMR.ManifestEntry)
    (rest : List MMR.ManifestEntry) :
    (∀ f, MMR.alookup e.part d.npz = some f →
        MMR.loadParts d (e :: rest)
          = Except.map (fun fs => f :: fs) (MMR.loadParts d rest))
      ∧ (MMR.alookup e.part d.npz = none →
          ∀ g, MMR.alookup e.part d.parquet = some g →
            MMR.loadParts d (e :: rest)
              = Except.map (fun fs => g :: fs) (MMR.loadParts d rest)) := by
  constructor
  · intro f hf
    simp only [MMR.loadParts, hf]
  · intro hn g hg
    simp only [MMR.loadParts, hn, hg]

/-- Witness for C10: with both variants present the npz content is loaded. -/
theorem MMR.npz_over_parquet_witness :
    MMR.loadParts MMR.bothDir [⟨"p", 1, 2⟩] = .ok [MMR.npzData] :=
  ((MMR.npz_over_parquet MMR.bothDir ⟨"p", 1, 2⟩ []).1 MMR.npzData (by decide)).trans rfl
